import Mathlib

/-!
Verification development for the Athena portfolio manager core.

The Python modules under `src/` are shallowly embedded here over exact
rationals (`ℚ`): a return matrix is a list of asset columns
(`List (List ℚ)`), a price table is a list of columns with optional
entries (`List (List (Option ℚ))`, `none` standing for NaN), and the
external SLSQP solver (`scipy.optimize.minimize`) is abstracted as a
`SolverResult` record that the embedded functions post-process exactly
as the Python code post-processes `result`.  Python exceptions are
modelled with `Except PyError`.
-/

namespace Athena

/-- Outcome of the external SLSQP solver call `scipy.optimize.minimize`:
the success flag, the solution vector `result.x`, and the diagnostic
message `result.message`. -/
structure SolverResult where
  success : Bool
  x : List ℚ
  message : String
  deriving Repr, DecidableEq

/-- Python exceptions reachable from the embedded modules, together with
the two exception classes that the specification postulates
(`configurationError`, `insufficientDataError`); the latter two are part
of the type so that their absence from every code path can be stated. -/
inductive PyError where
  | zeroDivisionError : PyError
  | valueError : String → PyError
  | linAlgError : PyError
  | configurationError : PyError
  | insufficientDataError : PyError
  deriving Repr, DecidableEq

/-- `pandas` column mean, `returns.mean()` for one column. -/
def mean (xs : List ℚ) : ℚ := xs.sum / (xs.length : ℚ)

/-- `pandas` sample covariance of two aligned columns (`DataFrame.cov`,
which normalizes by `N - 1`). -/
def sampleCov (xs ys : List ℚ) : ℚ :=
  (List.zipWith (fun a b => (a - mean xs) * (b - mean ys)) xs ys).sum /
    ((xs.length : ℚ) - 1)

/-- Sample variance of a column, the diagonal of `DataFrame.cov`. -/
def sampleVar (xs : List ℚ) : ℚ := sampleCov xs xs

/-- Covariance matrix `returns.cov()` of a return matrix given as a list
of asset columns. -/
def covMatrix (cols : List (List ℚ)) : List (List ℚ) :=
  cols.map (fun ci => cols.map (fun cj => sampleCov ci cj))

/-- Dot product of two vectors, `np.dot`. -/
def dot (xs ys : List ℚ) : ℚ := (List.zipWith (fun a b => a * b) xs ys).sum

/-- Matrix-vector product `np.dot(cov_matrix, w)`. -/
def matVec (m : List (List ℚ)) (w : List ℚ) : List ℚ :=
  m.map (fun row => dot row w)

/-- Objective of `optimize_portfolio_min_variance` (optimization.py
lines 139-140): `np.dot(w.T, np.dot(cov_matrix, w))`. -/
def portfolio_variance (cov : List (List ℚ)) (w : List ℚ) : ℚ :=
  dot w (matVec cov w)

/-- `np.sum(w[w > 0])`: sum of the strictly positive weights. -/
def sumPos (w : List ℚ) : ℚ := (w.filter (fun x => 0 < x)).sum

/-- `np.sum(w[w < 0])`: sum of the strictly negative weights. -/
def sumNeg (w : List ℚ) : ℚ := (w.filter (fun x => x < 0)).sum

/-- First equality constraint of `optimize_portfolio_long_short`
(optimization.py line 38): `np.sum(w[w > 0]) - long_short_ratio`. -/
def longShortConstraint1 (ratio : ℚ) (w : List ℚ) : ℚ := sumPos w - ratio

/-- Second equality constraint of `optimize_portfolio_long_short`
(optimization.py line 39): `np.sum(w[w < 0]) + 1.0`, which pins the sum
of the short weights to `-1` independently of `long_short_ratio`. -/
def longShortConstraint2 (w : List ℚ) : ℚ := sumNeg w + 1

/-- A weight vector satisfies the two equality constraints the code
hands to the solver for the `long_short` method. -/
def longShortFeasible (ratio : ℚ) (w : List ℚ) : Prop :=
  longShortConstraint1 ratio w = 0 ∧ longShortConstraint2 w = 0

instance (ratio : ℚ) (w : List ℚ) : Decidable (longShortFeasible ratio w) :=
  decidable_of_iff
    (longShortConstraint1 ratio w = 0 ∧ longShortConstraint2 w = 0) Iff.rfl

/-- Bounds handed to the solver for `long_short` (optimization.py
line 43): every weight lies in `[-1, 1]`. -/
def longShortBounds (w : List ℚ) : Prop := ∀ x ∈ w, -1 ≤ x ∧ x ≤ 1

instance (w : List ℚ) : Decidable (longShortBounds w) :=
  decidable_of_iff (∀ x ∈ w, -1 ≤ x ∧ x ≤ 1) Iff.rfl

/-- Initial-guess construction of `optimize_portfolio_long_short`
(optimization.py lines 30-32): `weights[:n//2] = 1.0/(n//2)` and
`weights[n//2:] = -1.0/(n//2)`.  When `n // 2 = 0` (fewer than two
assets) the Python expression `1.0 / (num_assets // 2)` raises
`ZeroDivisionError`. -/
def longShortInitialGuess (numAssets : Nat) : Except PyError (List ℚ) :=
  if numAssets / 2 = 0 then .error .zeroDivisionError
  else
    .ok (List.replicate (numAssets / 2) ((1 : ℚ) / ((numAssets / 2 : ℕ) : ℚ)) ++
      List.replicate (numAssets - numAssets / 2) (-((1 : ℚ) / ((numAssets / 2 : ℕ) : ℚ))))

/-- Post-solve behaviour of `optimize_portfolio_long_short`
(optimization.py lines 10-74): the initial guess is built first (and can
raise `ZeroDivisionError`), an unsupported objective raises `ValueError`,
and on solver success the vector `result.x` is returned unchanged. -/
def optimize_portfolio_long_short (returns : List (List ℚ)) (ratio : ℚ)
    (objective : String) (result : SolverResult) : Except PyError (List ℚ) :=
  let _ := ratio
  match longShortInitialGuess returns.length with
  | .error e => .error e
  | .ok _ =>
    if objective = "maximize_sharpe" ∨ objective = "minimize_risk" then
      if result.success then .ok result.x
      else .error (.valueError ("Long-short portfolio optimization failed:" ++ result.message))
    else .error (.valueError ("Unsupported optimization objective: " ++ objective))

/-- Post-solve behaviour of `optimize_portfolio_mean_variance`
(optimization.py lines 113-120): `result.x` is returned exactly as the
solver produced it; there is no renormalization step. -/
def optimize_portfolio_mean_variance (returns : List (List ℚ))
    (result : SolverResult) : Except PyError (List ℚ) :=
  let _ := covMatrix returns
  if result.success then .ok result.x
  else .error (.valueError ("Mean-Variance Optimization failed:" ++ result.message))

/-- Post-solve behaviour of `optimize_portfolio_min_variance`
(optimization.py lines 152-161): `result.x` is returned exactly as the
solver produced it; there is no renormalization step. -/
def optimize_portfolio_min_variance (returns : List (List ℚ))
    (result : SolverResult) : Except PyError (List ℚ) :=
  let _ := covMatrix returns
  if result.success then .ok result.x
  else .error (.valueError ("Minimum Variance Optimization failed:" ++ result.message))

/-- Post-solve behaviour of `optimize_portfolio_max_sharpe`
(optimization.py lines 196-206): `result.x` is returned exactly as the
solver produced it; there is no renormalization step. -/
def optimize_portfolio_max_sharpe (returns : List (List ℚ))
    (result : SolverResult) : Except PyError (List ℚ) :=
  let _ := covMatrix returns
  if result.success then .ok result.x
  else .error (.valueError ("Maximum Sharpe Ratio Optimization failed:" ++ result.message))

/-- Determinant of a square rational matrix given as a list of rows,
with a structural fuel argument (the fuel `m.length` always suffices, so
`detL` below computes the Laplace expansion along the first row). -/
def detFuel : Nat → List (List ℚ) → ℚ
  | _, [] => 1
  | 0, _ :: _ => 0
  | fuel + 1, r :: rest =>
    ((List.range r.length).map
      (fun j => (-1 : ℚ) ^ j * r.getD j 0 *
        detFuel fuel (rest.map (fun row => row.eraseIdx j)))).sum

/-- Determinant of a square rational matrix (list of rows). -/
def detL (m : List (List ℚ)) : ℚ := detFuel m.length m

/-- Behaviour of `optimize_portfolio_risk_parity` (optimization.py
lines 209-262).  Line 223 computes `np.linalg.inv(cov_matrix)` before
the solve; the inverse is never used afterwards, but `np.linalg.inv`
raises `LinAlgError` when the covariance matrix is singular, so an
exactly singular covariance matrix faults the whole computation.  On
solver success `result.x` is returned unchanged. -/
def optimize_portfolio_risk_parity (returns : List (List ℚ))
    (result : SolverResult) : Except PyError (List ℚ) :=
  if detL (covMatrix returns) = 0 then .error .linAlgError
  else if result.success then .ok result.x
  else .error (.valueError ("Risk Parity Optimization failed:" ++ result.message))

/-- Dispatcher `optimize_portfolio_multiple_methods` (optimization.py
lines 265-291). -/
def optimize_portfolio_multiple_methods (returns : List (List ℚ))
    (method : String) (result : SolverResult) : Except PyError (List ℚ) :=
  if method = "mean_variance" then optimize_portfolio_mean_variance returns result
  else if method = "minimum_variance" then optimize_portfolio_min_variance returns result
  else if method = "maximum_sharpe" then optimize_portfolio_max_sharpe returns result
  else if method = "risk_parity" then optimize_portfolio_risk_parity returns result
  else .error (.valueError ("Unsupported optimization method: " ++ method))

/-- Top-level dispatcher `optimize_portfolio` (optimization.py
lines 294-320). -/
def optimize_portfolio (returns : List (List ℚ)) (method objective : String)
    (ratio : ℚ) (result : SolverResult) : Except PyError (List ℚ) :=
  if method = "long_short" then
    optimize_portfolio_long_short returns ratio objective result
  else
    optimize_portfolio_multiple_methods returns method result

/-- Forward fill of one price column, the `fill_method='pad'` default
that `pandas.DataFrame.pct_change` applies to its input before
differencing; a leading block of missing values stays missing. -/
def ffillAux (prev : Option ℚ) : List (Option ℚ) → List (Option ℚ)
  | [] => []
  | some v :: xs => some v :: ffillAux (some v) xs
  | none :: xs => prev :: ffillAux prev xs

/-- Forward fill starting from no previous observation. -/
def ffill (xs : List (Option ℚ)) : List (Option ℚ) := ffillAux none xs

/-- One entry of `pct_change`: the period-over-period percentage change
of the current padded price against the previous padded price, missing
whenever either is missing. -/
def pctOp : Option ℚ → Option ℚ → Option ℚ
  | some prev, some cur => some ((cur - prev) / prev)
  | _, _ => none

/-- `Series.pct_change()` on one column: the column is forward filled
(`fill_method='pad'` default), then each entry is compared with the
previous padded entry; the first entry has no predecessor and is
missing. -/
def pctChangeCol (xs : List (Option ℚ)) : List (Option ℚ) :=
  let p := ffill xs
  List.zipWith (fun cur prev => pctOp prev cur) p (none :: p)

/-- Row indices kept by `DataFrame.dropna()` (default `how='any'`,
`axis=0`): a row survives only when every column has a value there. -/
def keepIndices (cols : List (List (Option ℚ))) : List ℕ :=
  (List.range (cols.headD []).length).filter
    (fun i => cols.all (fun c => (c.getD i none).isSome))

/-- `DataFrame.dropna()` on a table of aligned columns: every column is
restricted to the surviving row indices. -/
def dropnaTable (cols : List (List (Option ℚ))) : List (List ℚ) :=
  cols.map (fun c => (keepIndices cols).filterMap (fun i => c.getD i none))

/-- `calculate_returns` (risk_indicators.py lines 9-16):
`prices.pct_change().dropna()` on a price table given as a list of
aligned columns with `none` marking a missing price. -/
def calculate_returns (prices : List (List (Option ℚ))) : List (List ℚ) :=
  dropnaTable (prices.map pctChangeCol)

/-- `(1 + portfolio_returns).cumprod()` (backtesting.py line 40): the
running product of the list, seeded at 1. -/
def cumprod (xs : List ℚ) : List ℚ := (List.scanl (fun acc x => acc * x) 1 xs).tail

/-- Running maximum continuing from an already-seen maximum `m`. -/
def cummaxAux (m : ℚ) : List ℚ → List ℚ
  | [] => []
  | x :: xs => max m x :: cummaxAux (max m x) xs

/-- `Series.cummax()`: the running maximum of the series. -/
def cummax : List ℚ → List ℚ
  | [] => []
  | x :: xs => cummaxAux x (x :: xs)

/-- `calculate_max_drawdown` (risk_indicators.py lines 27-35):
`(cumulative_returns / cumulative_returns.cummax() - 1).min()`; `none`
models the NaN that `min` yields on an empty series. -/
def calculate_max_drawdown (cumulative_returns : List ℚ) : Option ℚ :=
  (List.zipWith (fun c m => c / m - 1) cumulative_returns
    (cummax cumulative_returns)).min?

/-- `returns.dot(weights)` (backtesting.py line 37) with the return
matrix given as a list of asset columns: at each timestamp the per-asset
returns are dotted with the weight vector. -/
def portfolio_returns (cols : List (List ℚ)) (w : List ℚ) : List ℚ :=
  (List.range (cols.headD []).length).map
    (fun t => dot (cols.map (fun c => c.getD t 0)) w)

/-- The maximum-drawdown leg of `calculate_risk_metrics` (backtesting.py
lines 37-41): portfolio returns, then the cumulative product of
`1 + r`, then `calculate_max_drawdown`. -/
def calculate_risk_metrics_max_drawdown (cols : List (List ℚ)) (w : List ℚ) :
    Option ℚ :=
  calculate_max_drawdown (cumprod ((portfolio_returns cols w).map (fun r => 1 + r)))

/-- Value of a named metric in one asset row of the fundamentals table,
`none` when the metric is absent for that asset. -/
def lookupMetric (row : List (String × ℚ)) (m : String) : Option ℚ :=
  (row.find? (fun p => p.1 == m)).map (fun p => p.2)

/-- The values of all configured metrics for one row, defined only when
every configured metric is present (`dropna` keeps exactly these rows). -/
def rowValues (ms : List String) (row : List (String × ℚ)) : Option (List ℚ) :=
  ms.mapM (lookupMetric row)

/-- Rows of `financial_data[['Ticker'] + metrics].dropna()`: the tickers
that carry a value for every configured metric, with those values. -/
def completeRows (ms : List String) (data : List (String × List (String × ℚ))) :
    List (String × List ℚ) :=
  data.filterMap (fun r => (rowValues ms r.2).map (fun vs => (r.1, vs)))

/-- Population variance of a column (`sklearn.StandardScaler` uses
`ddof = 0`). -/
def popVar (xs : List ℚ) : ℚ :=
  (xs.map (fun x => (x - mean xs) ^ 2)).sum / (xs.length : ℚ)

/-- `StandardScaler` transform of one metric column: subtract the
cross-sectional mean and divide by the population standard deviation;
a zero-variance column divides by 1 (sklearn replaces a zero scale by
1).  The square root of the variance is supplied by the floating-point
oracle `sqrtO`. -/
def standardizeColumn (sqrtO : ℚ → ℚ) (xs : List ℚ) : List ℚ :=
  let s := if popVar xs = 0 then 1 else sqrtO (popVar xs)
  xs.map (fun x => (x - mean xs) / s)

/-- Column `j` of a list of equal-length rows. -/
def columnOf (rows : List (List ℚ)) (j : ℕ) : List ℚ :=
  rows.map (fun r => r.getD j 0)

/-- `calculate_composite_scores` (scoring.py lines 9-53).  When the
metric and weight lists differ in length the function logs an error and
returns `None` (`Except.ok none`): no exception is raised and no scores
are produced.  Otherwise rows missing any configured metric are dropped,
each metric column is standardized, and each surviving ticker receives
the weighted sum of its standardized metrics. -/
def calculate_composite_scores (sqrtO : ℚ → ℚ)
    (financial_data : List (String × List (String × ℚ)))
    (metrics : List String) (weights : List ℚ) :
    Except PyError (Option (List (String × ℚ))) :=
  if metrics.length ≠ weights.length then .ok none
  else
    let rows := completeRows metrics financial_data
    let stdCols := (List.range metrics.length).map
      (fun j => standardizeColumn sqrtO (columnOf (rows.map (fun r => r.2)) j))
    let scores := (List.range rows.length).map
      (fun i => ((rows.getD i ("", [])).1,
        (List.zipWith (fun c wt => c.getD i 0 * wt) stdCols weights).sum))
    .ok (some scores)

/-- Modelled from the spec: the six-argument sector selection routine
that `run_robo_advisor` calls (robo_advisor.py lines 90-97) is missing
from `src/` — `screening.py` holds an older three-argument threshold
screener with a different signature.  Spec section 4.2: when a sector
has fewer than `L + S` eligible members, `L` and `S` are proportionally
scaled down to the member count using the ratio `L / (L + S)`, rounding
down, with a floor of 1 on each side (spec example: size 3 with
`L = S = 5` gives adjusted counts 1 and 2). -/
def adjustedCounts (l s n : ℕ) : ℕ × ℕ :=
  if l + s ≤ n then (l, s)
  else
    let ls := max 1 (n * l / (l + s))
    (ls, max 1 (n - ls))

/-- Modelled from the spec: per-sector candidate selection (spec
sections 4.2 and 6, `select_sector_candidates`): sort the sector's
scored members descending by composite score, take the adjusted long
count from the top and the adjusted short count from the bottom. -/
def select_sector_candidates (scored : List (String × ℚ)) (l s : ℕ) :
    List (String × ℚ) × List (String × ℚ) :=
  let sorted := scored.insertionSort (fun a b => b.2 ≤ a.2)
  let c := adjustedCounts l s scored.length
  (sorted.take c.1, sorted.reverse.take c.2)

/-- The total weight is the sum of the positive part and the negative
part: zero entries contribute to neither filter and to the sum as 0. -/
theorem sumPos_add_sumNeg (w : List ℚ) : sumPos w + sumNeg w = w.sum := by
  induction w with
  | nil => simp [sumPos, sumNeg]
  | cons x t ih =>
    simp only [sumPos, sumNeg, List.filter_cons] at ih ⊢
    rcases lt_trichotomy x 0 with h | h | h
    · rw [if_neg (by simp only [decide_eq_true_eq]; linarith),
        if_pos (by simp only [decide_eq_true_eq]; linarith),
        List.sum_cons, List.sum_cons]
      linarith
    · subst h
      rw [if_neg (by simp), if_neg (by simp), List.sum_cons]
      linarith
    · rw [if_pos (by simp only [decide_eq_true_eq]; linarith),
        if_neg (by simp only [decide_eq_true_eq]; linarith),
        List.sum_cons, List.sum_cons]
      linarith

/-- C1, counterexample.  With `long_short_ratio = 2`, the weight vector
`[1, 1, -1]` satisfies both equality constraints the code passes to the
solver (optimization.py lines 37-40) and the `[-1, 1]` bounds, and the
code returns it verbatim on solver success — yet its negative weights
sum to `-1`, which is not within `1e-4` of `-ratio = -2`.  The second
constraint pins the short side to `-1` regardless of the configured
ratio, so the claimed property fails for every ratio other than 1. -/
theorem long_short_ratio_two_counterexample :
    optimize_portfolio [[(1 : ℚ)/100], [(2 : ℚ)/100], [(3 : ℚ)/100]] "long_short"
      "maximize_sharpe" 2 ⟨true, [1, 1, -1], ""⟩ = .ok [1, 1, -1] ∧
    longShortFeasible 2 [1, 1, -1] ∧
    longShortBounds [1, 1, -1] ∧
    ¬ |sumNeg [1, 1, -1] - (-2)| ≤ 1 / 10000 := by
  refine ⟨rfl, ⟨?_, ?_⟩, ?_, ?_⟩
  · norm_num [longShortConstraint1, sumPos, List.filter]
  · norm_num [longShortConstraint2, sumNeg, List.filter]
  · intro x hx
    fin_cases hx <;> norm_num
  · norm_num [sumNeg, List.filter]

/-- C1, amended.  Any weight vector satisfying the code's two long-short
equality constraints within tolerance `ε` has its positive weights
summing to the configured ratio within `ε` and its negative weights
summing to `-1` (not `-ratio`) within `ε`; consequently the net
exposure is `ratio - 1` within `2ε`. -/
theorem long_short_constraint_exposures (ratio ε : ℚ) (w : List ℚ)
    (h1 : |longShortConstraint1 ratio w| ≤ ε)
    (h2 : |longShortConstraint2 w| ≤ ε) :
    |sumPos w - ratio| ≤ ε ∧ |sumNeg w - (-1)| ≤ ε ∧
      |w.sum - (ratio - 1)| ≤ 2 * ε := by
  have e1 : longShortConstraint1 ratio w = sumPos w - ratio := rfl
  have e2 : longShortConstraint2 w = sumNeg w + 1 := rfl
  rw [e1] at h1
  rw [e2] at h2
  refine ⟨h1, by rw [sub_neg_eq_add]; exact h2, ?_⟩
  have hsum : w.sum - (ratio - 1) = (sumPos w - ratio) + (sumNeg w + 1) := by
    have := sumPos_add_sumNeg w
    linarith
  calc |w.sum - (ratio - 1)| = |(sumPos w - ratio) + (sumNeg w + 1)| := by rw [hsum]
    _ ≤ |sumPos w - ratio| + |sumNeg w + 1| := abs_add _ _
    _ ≤ ε + ε := add_le_add h1 h2
    _ = 2 * ε := by ring

/-- Witness for `long_short_constraint_exposures` at ratio 1,
`w = [1, -1]`, `ε = 0`. -/
theorem long_short_constraint_exposures_witness :
    (|longShortConstraint1 1 [1, -1]| ≤ 0 ∧
      |longShortConstraint2 [1, -1]| ≤ 0) ∧
    (|sumPos [1, -1] - 1| ≤ 0 ∧ |sumNeg [1, -1] - (-1)| ≤ 0 ∧
      |List.sum [(1 : ℚ), -1] - (1 - 1)| ≤ 2 * 0) :=
  ⟨⟨by norm_num [longShortConstraint1, sumPos, List.filter],
      by norm_num [longShortConstraint2, sumNeg, List.filter]⟩,
    long_short_constraint_exposures 1 0 [1, -1]
      (by norm_num [longShortConstraint1, sumPos, List.filter])
      (by norm_num [longShortConstraint2, sumNeg, List.filter])⟩

/-- C2, counterexample.  `optimize_portfolio_min_variance` returns the
solver's vector `result.x` exactly as produced (optimization.py
lines 152-158): a successful solve whose weights sum to `0.99999999`
(well inside SLSQP's default tolerance) is passed through unchanged, so
the returned vector is not renormalized to sum exactly to 1. -/
theorem long_only_no_renormalization_counterexample :
    optimize_portfolio_min_variance [[(1 : ℚ)/100, 2/100, -1/100], [0, 1/100, 2/100]]
      ⟨true, [3/5, 39999999/100000000], ""⟩ = .ok [3/5, 39999999/100000000] ∧
    ¬ ([(3 : ℚ)/5, 39999999/100000000].sum = 1) := by
  exact ⟨rfl, by norm_num⟩

/-- C2, amended.  Every long-only method returns `result.x` verbatim on
solver success — no renormalization is performed; the sum-to-1 equality
and the `[0, 1]` box hold only as constraints handed to the solver (and
are asserted by the tests to 4 decimal places), not as exact
post-conditions.  For `risk_parity` the pass-through additionally
requires the covariance matrix to be nonsingular, because of the unused
`np.linalg.inv` call at optimization.py line 223. -/
theorem long_only_returns_solver_vector (returns : List (List ℚ))
    (result : SolverResult) (h : result.success = true) :
    optimize_portfolio_min_variance returns result = .ok result.x ∧
    optimize_portfolio_mean_variance returns result = .ok result.x ∧
    optimize_portfolio_max_sharpe returns result = .ok result.x ∧
    (detL (covMatrix returns) ≠ 0 →
      optimize_portfolio_risk_parity returns result = .ok result.x) := by
  refine ⟨?_, ?_, ?_, fun hdet => ?_⟩
  · simp [optimize_portfolio_min_variance, h]
  · simp [optimize_portfolio_mean_variance, h]
  · simp [optimize_portfolio_max_sharpe, h]
  · simp [optimize_portfolio_risk_parity, hdet, h]

/-- Witness for `long_only_returns_solver_vector` at a concrete
two-asset return matrix and a successful solver result. -/
theorem long_only_returns_solver_vector_witness :
    (SolverResult.mk true [1/2, 1/2] "").success = true ∧
    (optimize_portfolio_min_variance [[(1 : ℚ)/100, 2/100, -1/100], [0, 1/100, 2/100]]
        ⟨true, [1/2, 1/2], ""⟩ = .ok [1/2, 1/2] ∧
      optimize_portfolio_mean_variance [[(1 : ℚ)/100, 2/100, -1/100], [0, 1/100, 2/100]]
        ⟨true, [1/2, 1/2], ""⟩ = .ok [1/2, 1/2] ∧
      optimize_portfolio_max_sharpe [[(1 : ℚ)/100, 2/100, -1/100], [0, 1/100, 2/100]]
        ⟨true, [1/2, 1/2], ""⟩ = .ok [1/2, 1/2] ∧
      (detL (covMatrix [[(1 : ℚ)/100, 2/100, -1/100], [0, 1/100, 2/100]]) ≠ 0 →
        optimize_portfolio_risk_parity [[(1 : ℚ)/100, 2/100, -1/100], [0, 1/100, 2/100]]
          ⟨true, [1/2, 1/2], ""⟩ = .ok [1/2, 1/2])) :=
  ⟨rfl, long_only_returns_solver_vector _ _ rfl⟩

/-- C4.  The risk-parity routine computes `np.linalg.inv(cov_matrix)`
at optimization.py line 223 even though the inverse is never used: on an
exactly singular covariance matrix (here: two assets with identical
return columns) the computation faults with `LinAlgError` before the
solver is even invoked, contradicting the documented design that the
covariance enters only through `Σw` products and that singularity does
not fault the computation. -/
theorem risk_parity_singular_cov_faults :
    optimize_portfolio_risk_parity
      [[(1 : ℚ)/100, 2/100, 3/100], [(1 : ℚ)/100, 2/100, 3/100]]
      ⟨true, [1/2, 1/2], ""⟩ = .error .linAlgError := by
  have hdet : detL (covMatrix [[(1 : ℚ)/100, 2/100, 3/100], [(1 : ℚ)/100, 2/100, 3/100]]) = 0 := by
    norm_num [detL, detFuel, covMatrix, sampleCov, mean, List.range_succ]
  unfold optimize_portfolio_risk_parity
  rw [if_pos hdet]

/-- C5, counterexample.  On a metric/weight length mismatch,
`calculate_composite_scores` (scoring.py lines 26-29) logs an error and
returns `None`: no exception of any kind is raised, so in particular no
`ConfigurationError` is raised. -/
theorem composite_scores_mismatch_counterexample :
    calculate_composite_scores id [("AAPL", [("pe", 10)])] ["pe", "momentum"] [1] =
      .ok none ∧
    ∀ e : PyError,
      calculate_composite_scores id [("AAPL", [("pe", 10)])] ["pe", "momentum"] [1] ≠
        .error e := by
  refine ⟨rfl, fun e h => Except.noConfusion h⟩

/-- C5, amended.  Whenever the metric list and the weight list differ in
length, composite scoring returns `None` normally (raising nothing) and
produces no scores. -/
theorem composite_scores_mismatch_returns_none (sqrtO : ℚ → ℚ)
    (data : List (String × List (String × ℚ)))
    (metrics : List String) (weights : List ℚ)
    (h : metrics.length ≠ weights.length) :
    calculate_composite_scores sqrtO data metrics weights = .ok none := by
  unfold calculate_composite_scores
  rw [if_pos h]

/-- Witness for `composite_scores_mismatch_returns_none` on a concrete
mismatched configuration. -/
theorem composite_scores_mismatch_returns_none_witness :
    (["pe", "momentum"].length ≠ [(1 : ℚ)].length) ∧
    calculate_composite_scores id [("AAPL", [("pe", 10)])] ["pe", "momentum"] [1] =
      .ok none :=
  ⟨by decide, composite_scores_mismatch_returns_none id _ _ _ (by decide)⟩

/-- The long-short routine can raise `ZeroDivisionError` (initial-guess
construction) or `ValueError` (unsupported objective, solver failure)
but never the spec-postulated `InsufficientDataError`. -/
theorem long_short_no_insufficient_data (returns : List (List ℚ)) (ratio : ℚ)
    (objective : String) (result : SolverResult) :
    optimize_portfolio_long_short returns ratio objective result ≠
      Except.error PyError.insufficientDataError := by
  unfold optimize_portfolio_long_short
  split
  · next e heq =>
      have he : e = PyError.zeroDivisionError := by
        unfold longShortInitialGuess at heq
        split at heq
        · injection heq with h
          exact h.symm
        · exact absurd heq (by simp)
      subst he
      simp
  · split
    · split <;> simp
    · simp

/-- No branch of `optimize_portfolio_multiple_methods` can produce the
spec-postulated `InsufficientDataError`. -/
theorem multiple_methods_no_insufficient_data (returns : List (List ℚ))
    (method : String) (result : SolverResult) :
    optimize_portfolio_multiple_methods returns method result ≠
      Except.error PyError.insufficientDataError := by
  unfold optimize_portfolio_multiple_methods optimize_portfolio_mean_variance
    optimize_portfolio_min_variance optimize_portfolio_max_sharpe
    optimize_portfolio_risk_parity
  split
  · split <;> simp
  · split
    · split <;> simp
    · split
      · split <;> simp
      · split
        · split
          · simp
          · split <;> simp
        · simp

/-- C6, counterexample.  On a one-asset return matrix the
`minimum_variance` path succeeds, returning the solver's vector `[1]`,
instead of raising the spec-postulated `InsufficientDataError`; the
`long_short` path raises `ZeroDivisionError` (from
`1.0 / (num_assets // 2)` with `num_assets = 1`) instead. -/
theorem single_asset_no_insufficient_data_counterexample :
    optimize_portfolio [[(1 : ℚ)/100, 2/100]] "minimum_variance" "maximize_sharpe" 1
      ⟨true, [1], ""⟩ = .ok [1] ∧
    optimize_portfolio [[(1 : ℚ)/100, 2/100]] "long_short" "maximize_sharpe" 1
      ⟨true, [1], ""⟩ = .error .zeroDivisionError := by
  exact ⟨rfl, rfl⟩

/-- C6, amended.  The code performs no asset-count validation and
defines no `InsufficientDataError` anywhere: on a return matrix with
fewer than two assets, `minimum_variance` simply passes the matrix to
the solver and returns its vector (succeeding, e.g. with weight `[1]`
for a single asset), while `long_short` raises `ZeroDivisionError` from
`1.0 / (num_assets // 2)` in the initial-guess construction; no method
ever raises `InsufficientDataError` on any input. -/
theorem optimize_portfolio_few_assets_behavior (returns : List (List ℚ))
    (objective : String) (ratio : ℚ) (result : SolverResult)
    (hn : returns.length < 2) (hs : result.success = true) :
    optimize_portfolio returns "minimum_variance" objective ratio result =
      .ok result.x ∧
    optimize_portfolio returns "long_short" objective ratio result =
      .error .zeroDivisionError ∧
    ∀ method : String,
      optimize_portfolio returns method objective ratio result ≠
        .error .insufficientDataError := by
  refine ⟨?_, ?_, ?_⟩
  · unfold optimize_portfolio
    rw [if_neg (by decide)]
    unfold optimize_portfolio_multiple_methods
    rw [if_neg (by decide), if_pos rfl]
    simp [optimize_portfolio_min_variance, hs]
  · unfold optimize_portfolio
    rw [if_pos rfl]
    have h0 : returns.length / 2 = 0 := Nat.div_eq_of_lt hn
    have hg : longShortInitialGuess returns.length = .error .zeroDivisionError := by
      unfold longShortInitialGuess
      simp [h0]
    unfold optimize_portfolio_long_short
    rw [hg]
  · intro method
    unfold optimize_portfolio
    split
    · exact long_short_no_insufficient_data returns ratio objective result
    · exact multiple_methods_no_insufficient_data returns method result

/-- Witness for `optimize_portfolio_few_assets_behavior` on a concrete
one-asset return matrix and a successful solver result. -/
theorem optimize_portfolio_few_assets_behavior_witness :
    ([[(1 : ℚ)/100, 2/100]].length < 2 ∧
      (SolverResult.mk true [1] "").success = true) ∧
    (optimize_portfolio [[(1 : ℚ)/100, 2/100]] "minimum_variance" "maximize_sharpe" 1
        ⟨true, [1], ""⟩ = .ok [1] ∧
      optimize_portfolio [[(1 : ℚ)/100, 2/100]] "long_short" "maximize_sharpe" 1
        ⟨true, [1], ""⟩ = .error .zeroDivisionError ∧
      ∀ method : String,
        optimize_portfolio [[(1 : ℚ)/100, 2/100]] method "maximize_sharpe" 1
          ⟨true, [1], ""⟩ ≠ .error .insufficientDataError) :=
  ⟨⟨by decide, rfl⟩,
    optimize_portfolio_few_assets_behavior [[(1 : ℚ)/100, 2/100]] "maximize_sharpe" 1
      ⟨true, [1], ""⟩ (by decide) rfl⟩

/-- In the scaled-down case the adjusted long count stays strictly
below the sector size. -/
theorem adjusted_long_lt (l s n : ℕ) (hs : 1 ≤ s) (hn : 2 ≤ n)
    (h : ¬ l + s ≤ n) : max 1 (n * l / (l + s)) < n := by
  have hpos : 0 < l + s := by omega
  have hdiv : n * l / (l + s) < n := by
    rw [Nat.div_lt_iff_lt_mul hpos]
    have hl : l < l + s := by omega
    exact Nat.mul_lt_mul_of_le_of_lt (le_refl n) hl (by omega)
  have h1 : (1 : ℕ) < n := by omega
  omega

/-- C3 (spec-modelled).  For every scored sector with at least two
eligible members and configured per-sector counts `L, S ≥ 1`, the
selector produces at least one long and one short candidate, and the
combined selection never exceeds the sector size; in the degraded case
the counts are the proportionally scaled-down ones with a floor of 1. -/
theorem sector_selection_scaled_counts (scored : List (String × ℚ)) (l s : ℕ)
    (hl : 1 ≤ l) (hs : 1 ≤ s) (hn : 2 ≤ scored.length) :
    1 ≤ (select_sector_candidates scored l s).1.length ∧
    1 ≤ (select_sector_candidates scored l s).2.length ∧
    (select_sector_candidates scored l s).1.length +
      (select_sector_candidates scored l s).2.length ≤ scored.length := by
  unfold select_sector_candidates adjustedCounts
  set n := scored.length with hn'
  by_cases h : l + s ≤ n
  · rw [if_pos h]
    simp only [List.length_take, List.length_insertionSort, List.length_reverse, ← hn']
    omega
  · rw [if_neg h]
    simp only [List.length_take, List.length_insertionSort, List.length_reverse, ← hn']
    have hlt : max 1 (n * l / (l + s)) < n := adjusted_long_lt l s n hs hn h
    have h1 : 1 ≤ max 1 (n * l / (l + s)) := le_max_left 1 _
    omega

/-- Witness for `sector_selection_scaled_counts`: the spec's boundary
example, a sector of size 3 with configured counts `L = S = 5`. -/
theorem sector_selection_scaled_counts_witness :
    (1 ≤ 5 ∧ 1 ≤ 5 ∧
      2 ≤ [("A", (1 : ℚ)), ("B", 2), ("C", 3)].length) ∧
    (1 ≤ (select_sector_candidates [("A", (1 : ℚ)), ("B", 2), ("C", 3)] 5 5).1.length ∧
      1 ≤ (select_sector_candidates [("A", (1 : ℚ)), ("B", 2), ("C", 3)] 5 5).2.length ∧
      (select_sector_candidates [("A", (1 : ℚ)), ("B", 2), ("C", 3)] 5 5).1.length +
        (select_sector_candidates [("A", (1 : ℚ)), ("B", 2), ("C", 3)] 5 5).2.length ≤
        [("A", (1 : ℚ)), ("B", 2), ("C", 3)].length) :=
  ⟨⟨by omega, by omega, by decide⟩,
    sector_selection_scaled_counts [("A", (1 : ℚ)), ("B", 2), ("C", 3)] 5 5
      (by omega) (by omega) (by decide)⟩

/-- Forward filling a column without missing values leaves it unchanged,
for any carried-over previous observation. -/
theorem ffillAux_map_some (ps : List ℚ) :
    ∀ prev, ffillAux prev (ps.map some) = ps.map some := by
  induction ps with
  | nil => intro prev; rfl
  | cons p t ih =>
    intro prev
    simp only [List.map_cons, ffillAux]
    rw [ih (some p)]

/-- The `pct_change` pairing on a gap-free column is the plain
percentage-change formula applied to consecutive entries. -/
theorem zipWith_pct_somes (t : List ℚ) :
    ∀ p : ℚ,
      List.zipWith (fun cur prev => pctOp prev cur) (t.map some) ((p :: t).map some) =
        (List.zipWith (fun prev cur => (cur - prev) / prev) (p :: t) t).map some := by
  induction t with
  | nil => intro p; rfl
  | cons q t' ih =>
    intro p
    simp only [List.map_cons, List.zipWith_cons_cons]
    rw [show List.zipWith (fun cur prev => pctOp prev cur) (t'.map some) (q :: t'.map some) =
      (List.zipWith (fun prev cur => (cur - prev) / prev) (q :: t') t').map some from ih q]
    rfl

/-- Forward filling a gap-free column leaves it unchanged. -/
theorem ffill_map_some (ps : List ℚ) : ffill (ps.map some) = ps.map some :=
  ffillAux_map_some ps none

/-- `pct_change` of a gap-free column: the first entry is missing, the
rest are the consecutive percentage changes. -/
theorem pctChangeCol_map_some (ps : List ℚ) :
    pctChangeCol (ps.map some) =
      match ps with
      | [] => []
      | _ :: _ =>
        none :: (List.zipWith (fun prev cur => (cur - prev) / prev) ps ps.tail).map some := by
  cases ps with
  | nil => rfl
  | cons p t =>
    show (let q := ffill ((p :: t).map some)
      List.zipWith (fun cur prev => pctOp prev cur) q (none :: q)) = _
    rw [ffill_map_some (p :: t)]
    show List.zipWith (fun cur prev => pctOp prev cur) (some p :: t.map some)
      (none :: (p :: t).map some) = _
    rw [List.zipWith_cons_cons, zipWith_pct_somes t p]
    rfl

/-- Extracting the present entries of a column by index through the
`dropna` filter is the same as keeping its present entries in order. -/
theorem keep_extract (c : List (Option ℚ)) :
    ((List.range c.length).filter (fun i => (c.getD i none).isSome)).filterMap
        (fun i => c.getD i none) = c.filterMap id := by
  induction c with
  | nil => rfl
  | cons x t ih =>
    rw [List.length_cons, List.range_succ_eq_map, List.filter_cons]
    have hmap : (List.filter (fun i => ((x :: t).getD i none).isSome)
        ((List.range t.length).map Nat.succ)) =
        ((List.range t.length).filter (fun i => (t.getD i none).isSome)).map Nat.succ := by
      rw [List.filter_map]
      rfl
    cases x with
    | none =>
      simp only [List.getD_cons_zero, Option.isSome_none, if_false, Bool.false_eq_true]
      rw [hmap, List.filterMap_map]
      simpa only [Function.comp_def, List.getElem?_cons_succ] using ih
    | some v =>
      simp only [List.getD_cons_zero, Option.isSome_some, if_true]
      rw [List.filterMap_cons, hmap, List.filterMap_map]
      simp only [List.getD_cons_zero, List.getD_cons_succ, Function.comp_def,
        List.getElem?_cons_succ, List.filterMap_cons, id_eq]
      rw [ih]

/-- `dropna` on a single-column table keeps exactly the present entries
of that column. -/
theorem dropna_single (c : List (Option ℚ)) :
    dropnaTable [c] = [c.filterMap id] := by
  unfold dropnaTable keepIndices
  simp only [List.headD_cons, List.map_cons, List.map_nil, List.all_cons, List.all_nil,
    Bool.and_true]
  rw [keep_extract c]

/-- C8.  Applied to a gap-free price series of length `n`,
`calculate_returns` (i.e. `prices.pct_change().dropna()`) yields exactly
the series of consecutive percentage changes `(p[i+1] - p[i]) / p[i]`,
whose length is `n - 1`: the first price observation is dropped. -/
theorem calculate_returns_series_length_and_values (ps : List ℚ) :
    calculate_returns [ps.map some] =
      [List.zipWith (fun prev cur => (cur - prev) / prev) ps ps.tail] ∧
    ((calculate_returns [ps.map some]).headD []).length = ps.length - 1 := by
  have hmain : calculate_returns [ps.map some] =
      [List.zipWith (fun prev cur => (cur - prev) / prev) ps ps.tail] := by
    unfold calculate_returns
    rw [List.map_cons, List.map_nil, dropna_single, pctChangeCol_map_some]
    cases ps with
    | nil => rfl
    | cons p t =>
      simp only [List.filterMap_cons, id]
      simp
  refine ⟨hmain, ?_⟩
  rw [hmain]
  simp only [List.headD_cons, List.length_zipWith, List.length_tail]
  omega

/-- A `filterMap` whose function produces a value on every list element
keeps the list's length. -/
theorem filterMap_length_isSome (keep : List ℕ) (f : ℕ → Option ℚ)
    (h : ∀ i ∈ keep, (f i).isSome) : (keep.filterMap f).length = keep.length := by
  induction keep with
  | nil => rfl
  | cons i t ih =>
    have hi := h i (List.mem_cons_self i t)
    rcases Option.isSome_iff_exists.mp hi with ⟨v, hv⟩
    rw [List.filterMap_cons, hv, List.length_cons, List.length_cons,
      ih (fun j hj => h j (List.mem_cons_of_mem i hj))]

/-- C10, counterexample.  `pct_change` forward-fills missing prices
before differencing (the `fill_method='pad'` pandas default), so the
timestamp at which asset A's price is missing is NOT dropped: it
survives with a return of 0 for A.  Only the first row (no predecessor)
is dropped; had the whole missing-value row been removed for all assets,
each output column would hold at most one entry, but it holds two. -/
theorem pct_change_pad_keeps_missing_row_counterexample :
    calculate_returns [[some 1, none, some 2], [some 1, some 2, some 4]] =
      [[0, 1], [1, 1]] ∧
    ¬ ((calculate_returns [[some 1, none, some 2], [some 1, some 2, some 4]]).headD
        []).length ≤ 1 := by
  have h : calculate_returns [[some 1, none, some 2], [some 1, some 2, some 4]] =
      [[0, 1], [1, 1]] := by
    norm_num [calculate_returns, dropnaTable, keepIndices, pctChangeCol, ffill, ffillAux,
      pctOp, List.range_succ, List.filterMap_cons, List.getElem?_cons_succ,
      List.getElem?_cons_zero, Option.getD_some]
  refine ⟨h, ?_⟩
  rw [h]
  decide

/-- C10, amended.  Whatever missing values the price table contains,
`dropna` removes rows across every column simultaneously: every column
of the output return matrix has the same length (the number of row
indices at which every column's computed return is present), hence
identical timestamp alignment, and by construction contains no missing
values.  A missing interior price itself does not force its row out:
`pct_change` pads it and produces a 0 return there. -/
theorem calculate_returns_aligned_no_missing (prices : List (List (Option ℚ))) :
    ∀ c ∈ calculate_returns prices,
      c.length = (keepIndices (prices.map pctChangeCol)).length := by
  intro c hc
  unfold calculate_returns dropnaTable at hc
  rcases List.mem_map.mp hc with ⟨c0, hc0, rfl⟩
  apply filterMap_length_isSome
  intro i hi
  unfold keepIndices at hi
  have hmem := (List.mem_filter.mp hi).2
  have hall := List.all_eq_true.mp hmem
  exact hall c0 hc0

/-- Witness for `calculate_returns_aligned_no_missing` at a concrete
two-column price table with one missing interior value. -/
theorem calculate_returns_aligned_no_missing_witness :
    [(0 : ℚ), 1] ∈ calculate_returns [[some 1, none, some 2], [some 1, some 2, some 4]] ∧
    [(0 : ℚ), 1].length =
      (keepIndices ([[some 1, none, some 2], [some 1, some 2, some 4]].map
        pctChangeCol)).length := by
  have h : calculate_returns [[some 1, none, some 2], [some 1, some 2, some 4]] =
      [[0, 1], [1, 1]] := by
    norm_num [calculate_returns, dropnaTable, keepIndices, pctChangeCol, ffill, ffillAux,
      pctOp, List.range_succ, List.filterMap_cons, List.getElem?_cons_succ,
      List.getElem?_cons_zero, Option.getD_some]
  have hmem : [(0 : ℚ), 1] ∈
      calculate_returns [[some 1, none, some 2], [some 1, some 2, some 4]] := by
    rw [h]
    exact List.mem_cons_self _ _
  exact ⟨hmem,
    calculate_returns_aligned_no_missing [[some 1, none, some 2], [some 1, some 2, some 4]]
      [(0 : ℚ), 1] hmem⟩

/-- Every entry of a running product of positive factors seeded at a
positive value is positive. -/
theorem scanl_mul_pos (xs : List ℚ) :
    ∀ a : ℚ, 0 < a → (∀ x ∈ xs, 0 < x) →
      ∀ y ∈ List.scanl (fun acc x => acc * x) a xs, 0 < y := by
  induction xs with
  | nil =>
    intro a ha _ y hy
    simp only [List.scanl_nil, List.mem_singleton] at hy
    exact hy ▸ ha
  | cons x t ih =>
    intro a ha hx y hy
    rw [List.scanl_cons] at hy
    simp only [List.singleton_append, List.mem_cons] at hy
    rcases hy with rfl | hy
    · exact ha
    · exact ih (a * x) (mul_pos ha (hx x (List.mem_cons_self x t)))
        (fun z hz => hx z (List.mem_cons_of_mem x hz)) y hy

/-- The cumulative product of positive factors is everywhere positive. -/
theorem cumprod_pos (xs : List ℚ) (h : ∀ x ∈ xs, 0 < x) :
    ∀ y ∈ cumprod xs, 0 < y := by
  intro y hy
  exact scanl_mul_pos xs 1 one_pos h y (List.mem_of_mem_tail hy)

/-- `cumprod` preserves the series length. -/
theorem cumprod_length (xs : List ℚ) : (cumprod xs).length = xs.length := by
  unfold cumprod
  rw [List.length_tail, List.length_scanl]
  omega

/-- `cummaxAux` preserves the series length. -/
theorem cummaxAux_length (t : List ℚ) : ∀ m : ℚ, (cummaxAux m t).length = t.length := by
  induction t with
  | nil => intro m; rfl
  | cons x t ih => intro m; simp [cummaxAux, ih]

/-- `cummax` preserves the series length. -/
theorem cummax_length (xs : List ℚ) : (cummax xs).length = xs.length := by
  cases xs with
  | nil => rfl
  | cons x t => exact cummaxAux_length (x :: t) x

/-- Each drawdown entry `c / runningMax - 1` is nonpositive when the
cumulative series is positive: the running maximum dominates the
current value and is itself positive. -/
theorem drawdown_entries_nonpos (xs : List ℚ) :
    ∀ m : ℚ, 0 < m → (∀ x ∈ xs, 0 < x) →
      ∀ y ∈ List.zipWith (fun c mm => c / mm - 1) xs (cummaxAux m xs), y ≤ 0 := by
  induction xs with
  | nil =>
    intro m _ _ y hy
    simp at hy
  | cons x t ih =>
    intro m hm hx y hy
    simp only [cummaxAux, List.zipWith_cons_cons, List.mem_cons] at hy
    rcases hy with rfl | hy
    · have hmx : 0 < max m x := lt_of_lt_of_le hm (le_max_left m x)
      have hdiv : x / max m x ≤ 1 := (div_le_one hmx).mpr (le_max_right m x)
      linarith
    · exact ih (max m x) (lt_of_lt_of_le hm (le_max_left m x))
        (fun z hz => hx z (List.mem_cons_of_mem x hz)) y hy

/-- All drawdown entries of a positive cumulative series are
nonpositive. -/
theorem drawdown_all_nonpos (cum : List ℚ) (h : ∀ x ∈ cum, 0 < x) :
    ∀ y ∈ List.zipWith (fun c mm => c / mm - 1) cum (cummax cum), y ≤ 0 := by
  cases cum with
  | nil =>
    intro y hy
    simp at hy
  | cons c t =>
    intro y hy
    exact drawdown_entries_nonpos (c :: t) c (h c (List.mem_cons_self c t)) h y hy

/-- Folding `max` with a combined seed peels off the left component. -/
theorem foldl_max_pull (t : List ℚ) :
    ∀ a b : ℚ, t.foldl max (max a b) = max a (t.foldl max b) := by
  induction t with
  | nil => intro a b; rfl
  | cons z t ih =>
    intro a b
    rw [List.foldl_cons, List.foldl_cons, max_assoc, ih a (max b z)]

/-- The maximum of a nonempty list as a fold from its head. -/
theorem max?_cons_foldl (t : List ℚ) :
    ∀ x : ℚ, (x :: t).max? = some (t.foldl max x) := by
  induction t with
  | nil => intro x; rfl
  | cons y t ih =>
    intro x
    rw [List.max?_cons, ih y]
    simp only [Option.elim_some]
    rw [List.foldl_cons, foldl_max_pull t x y]

/-- The running maximum at index `j`, continuing from seed `m`, is the
fold of `max` over the first `j + 1` entries seeded at `m`. -/
theorem cummaxAux_getD (t : List ℚ) :
    ∀ (m : ℚ) (j : ℕ), j < t.length →
      (cummaxAux m t).getD j 0 = (t.take (j + 1)).foldl max m := by
  induction t with
  | nil =>
    intro m j hj
    simp at hj
  | cons x t ih =>
    intro m j hj
    cases j with
    | zero => simp [cummaxAux]
    | succ j =>
      rw [show cummaxAux m (x :: t) = max m x :: cummaxAux (max m x) t from rfl,
        List.getD_cons_succ, List.take_succ_cons, List.foldl_cons]
      exact ih (max m x) j (by simpa using hj)

/-- The running maximum at index `i` equals the maximum of the first
`i + 1` entries of the series: the independent characterization of
`Series.cummax`. -/
theorem cummax_getD (xs : List ℚ) (i : ℕ) (hi : i < xs.length) :
    (cummax xs).getD i 0 = ((xs.take (i + 1)).max?).getD 0 := by
  cases xs with
  | nil => simp at hi
  | cons c t =>
    rw [List.take_succ_cons, max?_cons_foldl (t.take i) c, Option.getD_some]
    cases i with
    | zero =>
      show (cummaxAux c (c :: t)).getD 0 0 = _
      simp [cummaxAux]
    | succ j =>
      show (cummaxAux c (c :: t)).getD (j + 1) 0 = _
      rw [show cummaxAux c (c :: t) = max c c :: cummaxAux (max c c) t from rfl,
        List.getD_cons_succ, max_self]
      exact cummaxAux_getD t c j (by simpa using hi)

/-- The drawdown series computed with the running maximum coincides,
entry by entry, with the series `cum[i] / max(cum[0..i]) - 1` written
with an explicit prefix maximum. -/
theorem drawdown_list_eq (cum : List ℚ) :
    List.zipWith (fun c mm => c / mm - 1) cum (cummax cum) =
      (List.range cum.length).map
        (fun i => cum.getD i 0 / ((cum.take (i + 1)).max?.getD 0) - 1) := by
  apply List.ext_getElem
  · rw [List.length_zipWith, cummax_length, List.length_map, List.length_range]
    simp
  · intro n h1 h2
    have hn : n < cum.length := by
      rw [List.length_zipWith, cummax_length] at h1
      simpa using h1
    have hcn : n < (cummax cum).length := by rw [cummax_length]; exact hn
    rw [List.getElem_zipWith, List.getElem_map, List.getElem_range]
    rw [← List.getD_eq_getElem cum 0 hn, ← List.getD_eq_getElem (cummax cum) 0 hcn,
      cummax_getD cum n hn]

/-- C9.  For every portfolio whose return series is nonempty and has
all returns above -1, the maximum drawdown computed by the risk
evaluator (`calculate_risk_metrics` feeding `calculate_max_drawdown`
with the cumulative product of `1 + r`) equals the minimum over the
whole series of `cumulative / prefix-maximum-of-cumulative - 1`, and
that minimum is at most 0. -/
theorem max_drawdown_formula_nonpos (cols : List (List ℚ)) (w : List ℚ)
    (hne : portfolio_returns cols w ≠ [])
    (hgt : ∀ r ∈ portfolio_returns cols w, -1 < r) :
    calculate_risk_metrics_max_drawdown cols w =
      ((List.range (cumprod ((portfolio_returns cols w).map (fun r => 1 + r))).length).map
        (fun i =>
          (cumprod ((portfolio_returns cols w).map (fun r => 1 + r))).getD i 0 /
            (((cumprod ((portfolio_returns cols w).map (fun r => 1 + r))).take
              (i + 1)).max?.getD 0) - 1)).min? ∧
    ∃ m, calculate_risk_metrics_max_drawdown cols w = some m ∧ m ≤ 0 := by
  have heq : calculate_risk_metrics_max_drawdown cols w =
      (List.zipWith (fun c mm => c / mm - 1)
        (cumprod ((portfolio_returns cols w).map (fun r => 1 + r)))
        (cummax (cumprod ((portfolio_returns cols w).map (fun r => 1 + r))))).min? := rfl
  have hpos : ∀ x ∈ cumprod ((portfolio_returns cols w).map (fun r => 1 + r)), 0 < x := by
    apply cumprod_pos
    intro x hx
    rcases List.mem_map.mp hx with ⟨r, hr, rfl⟩
    have := hgt r hr
    linarith
  refine ⟨by rw [heq, drawdown_list_eq], ?_⟩
  rcases hm : (List.zipWith (fun c mm => c / mm - 1)
      (cumprod ((portfolio_returns cols w).map (fun r => 1 + r)))
      (cummax (cumprod ((portfolio_returns cols w).map (fun r => 1 + r))))).min? with _ | m
  · exfalso
    have hempty := List.min?_eq_none_iff.mp hm
    have hlen := congrArg List.length hempty
    rw [List.length_zipWith, cummax_length, List.length_nil] at hlen
    simp only [min_self] at hlen
    rw [cumprod_length, List.length_map] at hlen
    exact hne (List.length_eq_zero.mp hlen)
  · refine ⟨m, by rw [heq, hm], ?_⟩
    have hmem := List.min?_mem min_choice hm
    exact drawdown_all_nonpos _ hpos m hmem

/-- Witness for `max_drawdown_formula_nonpos` at a concrete one-period,
two-asset portfolio. -/
theorem max_drawdown_formula_nonpos_witness :
    (portfolio_returns [[(1 : ℚ)/10], [(1 : ℚ)/10]] [1, 0] ≠ [] ∧
      ∀ r ∈ portfolio_returns [[(1 : ℚ)/10], [(1 : ℚ)/10]] [1, 0], -1 < r) ∧
    ∃ m, calculate_risk_metrics_max_drawdown [[(1 : ℚ)/10], [(1 : ℚ)/10]] [1, 0] =
      some m ∧ m ≤ 0 := by
  have h1 : portfolio_returns [[(1 : ℚ)/10], [(1 : ℚ)/10]] [1, 0] = [1/10] := by
    norm_num [portfolio_returns, dot, List.range_succ]
  have h2 : ∀ r ∈ portfolio_returns [[(1 : ℚ)/10], [(1 : ℚ)/10]] [1, 0], (-1 : ℚ) < r := by
    rw [h1]
    intro r hr
    rw [List.mem_singleton] at hr
    subst hr
    norm_num
  exact ⟨⟨by rw [h1]; simp, h2⟩,
    (max_drawdown_formula_nonpos [[(1 : ℚ)/10], [(1 : ℚ)/10]] [1, 0]
      (by rw [h1]; simp) h2).2⟩

/-- The numerator of a covariance is symmetric in the two columns. -/
theorem zipWith_dev_comm (mx my : ℚ) (xs : List ℚ) :
    ∀ ys : List ℚ,
      List.zipWith (fun a b => (a - mx) * (b - my)) xs ys =
        List.zipWith (fun a b => (a - my) * (b - mx)) ys xs := by
  induction xs with
  | nil => intro ys; cases ys <;> rfl
  | cons x t ih =>
    intro ys
    cases ys with
    | nil => rfl
    | cons y u =>
      rw [List.zipWith_cons_cons, List.zipWith_cons_cons, ih u, mul_comm]

/-- Sample covariance is symmetric on aligned columns. -/
theorem sampleCov_comm (xs ys : List ℚ) (h : xs.length = ys.length) :
    sampleCov xs ys = sampleCov ys xs := by
  unfold sampleCov
  rw [zipWith_dev_comm (mean xs) (mean ys) xs ys, h]

/-- The diagonal covariance numerator is a sum of squares. -/
theorem zipWith_sq_sum_nonneg (l : List ℚ) :
    ∀ m : ℚ, 0 ≤ (List.zipWith (fun a b => (a - m) * (b - m)) l l).sum := by
  induction l with
  | nil => intro m; simp
  | cons x t ih =>
    intro m
    rw [List.zipWith_cons_cons, List.sum_cons]
    have := mul_self_nonneg (x - m)
    have := ih m
    linarith

/-- The sample variance of any column is nonnegative. -/
theorem sampleVar_nonneg (xs : List ℚ) : 0 ≤ sampleVar xs := by
  cases xs with
  | nil => norm_num [sampleVar, sampleCov]
  | cons x t =>
    unfold sampleVar sampleCov
    apply div_nonneg (zipWith_sq_sum_nonneg (x :: t) (mean (x :: t)))
    rw [List.length_cons]
    push_cast
    linarith

/-- Arithmetic core of the two-asset minimum-variance program: any
minimizer of `vA·a² + 2c·ab + vB·b²` on the simplex `a + b = 1`,
`a, b ∈ [0,1]` puts no more weight on the first asset than on the second
when the second variance is strictly smaller (`vB < vA`), the matrix is
positive semidefinite (`c² ≤ vA·vB`) and `vB ≥ 0`. -/
theorem quad_min_le_half (vA vB c wA wB : ℚ)
    (hvB : 0 ≤ vB) (hpsd : c ^ 2 ≤ vA * vB) (hlt : vB < vA)
    (hsum : wA + wB = 1) (_h0A : 0 ≤ wA)
    (hmin : ∀ a b : ℚ, a + b = 1 → 0 ≤ a → a ≤ 1 → 0 ≤ b → b ≤ 1 →
      vA * wA ^ 2 + 2 * c * (wA * wB) + vB * wB ^ 2 ≤
        vA * a ^ 2 + 2 * c * (a * b) + vB * b ^ 2) :
    wA ≤ wB := by
  have hd : 0 < vA + vB - 2 * c := by
    by_contra hd'
    push_neg at hd'
    have h1 : (0 : ℚ) ≤ 2 * c - vA - vB := by linarith
    have h2 : (0 : ℚ) ≤ vA + vB := by linarith
    have h3 : (0 : ℚ) ≤ c := by linarith
    nlinarith [mul_nonneg h1 h2, mul_nonneg h3 h1, hpsd,
      mul_pos (sub_pos.mpr hlt) (sub_pos.mpr hlt)]
  by_contra hBA
  push_neg at hBA
  have hhalf : 1 / 2 < wA := by linarith
  have hwB : wB = 1 - wA := by linarith
  by_cases hcase : 0 ≤ vB - c
  · have hq0 : 0 ≤ (vB - c) / (vA + vB - 2 * c) := div_nonneg hcase hd.le
    have hqd : (vA + vB - 2 * c) * ((vB - c) / (vA + vB - 2 * c)) = vB - c :=
      mul_div_cancel₀ (vB - c) (ne_of_gt hd)
    have hq12 : (vB - c) / (vA + vB - 2 * c) ≤ 1 / 2 := by
      rw [div_le_iff₀ hd]
      linarith
    have hle := hmin ((vB - c) / (vA + vB - 2 * c))
      (1 - (vB - c) / (vA + vB - 2 * c)) (by ring) hq0 (by linarith) (by linarith)
      (by linarith)
    have key : (vA * wA ^ 2 + 2 * c * (wA * wB) + vB * wB ^ 2) -
        (vA * ((vB - c) / (vA + vB - 2 * c)) ^ 2 +
          2 * c * (((vB - c) / (vA + vB - 2 * c)) *
            (1 - (vB - c) / (vA + vB - 2 * c))) +
          vB * (1 - (vB - c) / (vA + vB - 2 * c)) ^ 2) =
        (vA + vB - 2 * c) * (wA - (vB - c) / (vA + vB - 2 * c)) ^ 2 := by
      have hDne : vA + vB - 2 * c ≠ 0 := ne_of_gt hd
      rw [hwB]
      field_simp
      ring
    have hdiff : 0 < (vA + vB - 2 * c) *
        (wA - (vB - c) / (vA + vB - 2 * c)) ^ 2 :=
      mul_pos hd (pow_pos (by linarith) 2)
    linarith
  · push_neg at hcase
    have hle := hmin 0 1 (by ring) le_rfl (by norm_num) (by norm_num) le_rfl
    have key : (vA * wA ^ 2 + 2 * c * (wA * wB) + vB * wB ^ 2) -
        (vA * (0 : ℚ) ^ 2 + 2 * c * ((0 : ℚ) * 1) + vB * (1 : ℚ) ^ 2) =
        wA * ((vA + vB - 2 * c) * wA - 2 * (vB - c)) := by
      rw [hwB]
      ring
    have hinner : 0 < (vA + vB - 2 * c) * wA - 2 * (vB - c) := by
      have h4 : 0 < (vA + vB - 2 * c) * wA := mul_pos hd (by linarith)
      linarith
    have hdiff : 0 < wA * ((vA + vB - 2 * c) * wA - 2 * (vB - c)) :=
      mul_pos (by linarith) hinner
    linarith

/-- C7.  For every two-asset return matrix whose second column has
strictly lower sample variance (with a positive-semidefinite covariance
matrix, as every covariance matrix of real data is), every weight
vector that is feasible for the constraints the code hands to the
solver (sum 1, box `[0,1]`) and exactly minimizes the code's objective
`portfolio_variance` puts at least as much weight on the lower-variance
asset B as on A, and the two weights sum to 1. -/
theorem min_variance_two_asset_lower_variance_weight
    (rA rB : List ℚ) (wA wB : ℚ)
    (hlen : rA.length = rB.length)
    (hpsd : sampleCov rA rB ^ 2 ≤ sampleVar rA * sampleVar rB)
    (hlt : sampleVar rB < sampleVar rA)
    (hsum : wA + wB = 1)
    (h0A : 0 ≤ wA) (_h1A : wA ≤ 1) (_h0B : 0 ≤ wB) (_h1B : wB ≤ 1)
    (hmin : ∀ a b : ℚ, a + b = 1 → 0 ≤ a → a ≤ 1 → 0 ≤ b → b ≤ 1 →
      portfolio_variance (covMatrix [rA, rB]) [wA, wB] ≤
        portfolio_variance (covMatrix [rA, rB]) [a, b]) :
    wA ≤ wB ∧ wA + wB = 1 := by
  have hcc : sampleCov rB rA = sampleCov rA rB := (sampleCov_comm rA rB hlen).symm
  have e : ∀ x y : ℚ, portfolio_variance (covMatrix [rA, rB]) [x, y] =
      sampleVar rA * x ^ 2 + 2 * sampleCov rA rB * (x * y) + sampleVar rB * y ^ 2 := by
    intro x y
    have h1 : portfolio_variance (covMatrix [rA, rB]) [x, y] =
        sampleCov rA rA * x ^ 2 + sampleCov rA rB * (x * y) +
          sampleCov rB rA * (x * y) + sampleCov rB rB * y ^ 2 := by
      simp only [portfolio_variance, covMatrix, matVec, dot, List.map_cons, List.map_nil,
        List.zipWith_cons_cons, List.zipWith_nil_right, List.sum_cons, List.sum_nil]
      ring
    rw [h1, hcc]
    unfold sampleVar
    ring
  refine ⟨?_, hsum⟩
  apply quad_min_le_half (sampleVar rA) (sampleVar rB) (sampleCov rA rB) wA wB
    (sampleVar_nonneg rB) hpsd hlt hsum h0A
  intro a b hab h0a h1a h0b h1b
  have := hmin a b hab h0a h1a h0b h1b
  rw [e wA wB, e a b] at this
  exact this

/-- Witness for `min_variance_two_asset_lower_variance_weight` at the
spec's example matrix `{A: [0.01, 0.02, -0.01], B: [0.00, 0.01, 0.02]}`,
whose exact minimum-variance weights are `[3/8, 5/8]`. -/
theorem min_variance_two_asset_lower_variance_weight_witness :
    (sampleCov [(1 : ℚ)/100, 2/100, -1/100] [(0 : ℚ), 1/100, 2/100] ^ 2 ≤
        sampleVar [(1 : ℚ)/100, 2/100, -1/100] * sampleVar [(0 : ℚ), 1/100, 2/100] ∧
      sampleVar [(0 : ℚ), 1/100, 2/100] < sampleVar [(1 : ℚ)/100, 2/100, -1/100]) ∧
    ((3 : ℚ)/8 ≤ 5/8 ∧ (3 : ℚ)/8 + 5/8 = 1) := by
  have hpsd : sampleCov [(1 : ℚ)/100, 2/100, -1/100] [(0 : ℚ), 1/100, 2/100] ^ 2 ≤
      sampleVar [(1 : ℚ)/100, 2/100, -1/100] * sampleVar [(0 : ℚ), 1/100, 2/100] := by
    norm_num [sampleVar, sampleCov, mean]
  have hlt : sampleVar [(0 : ℚ), 1/100, 2/100] < sampleVar [(1 : ℚ)/100, 2/100, -1/100] := by
    norm_num [sampleVar, sampleCov, mean]
  have hcov : covMatrix [[(1 : ℚ)/100, 2/100, -1/100], [(0 : ℚ), 1/100, 2/100]] =
      [[7/30000, -1/10000], [-1/10000, 1/10000]] := by
    norm_num [covMatrix, sampleVar, sampleCov, mean]
  have epv : ∀ x y : ℚ,
      portfolio_variance (covMatrix [[(1 : ℚ)/100, 2/100, -1/100], [(0 : ℚ), 1/100, 2/100]])
        [x, y] =
      (7 : ℚ)/30000 * x ^ 2 + 2 * (-1/10000) * (x * y) + (1 : ℚ)/10000 * y ^ 2 := by
    intro x y
    rw [hcov]
    simp only [portfolio_variance, matVec, dot, List.map_cons, List.map_nil,
      List.zipWith_cons_cons, List.zipWith_nil_right, List.sum_cons, List.sum_nil]
    ring
  have hmin : ∀ a b : ℚ, a + b = 1 → 0 ≤ a → a ≤ 1 → 0 ≤ b → b ≤ 1 →
      portfolio_variance (covMatrix [[(1 : ℚ)/100, 2/100, -1/100], [(0 : ℚ), 1/100, 2/100]])
        [3/8, 5/8] ≤
      portfolio_variance (covMatrix [[(1 : ℚ)/100, 2/100, -1/100], [(0 : ℚ), 1/100, 2/100]])
        [a, b] := by
    intro a b hab h0a h1a h0b h1b
    rw [epv, epv]
    have hb : b = 1 - a := by linarith
    subst hb
    nlinarith [sq_nonneg (a - 3/8)]
  exact ⟨⟨hpsd, hlt⟩,
    min_variance_two_asset_lower_variance_weight
      [(1 : ℚ)/100, 2/100, -1/100] [(0 : ℚ), 1/100, 2/100] (3/8) (5/8)
      rfl hpsd hlt (by norm_num) (by norm_num) (by norm_num) (by norm_num) (by norm_num)
      hmin⟩

end Athena
